import Mathlib

/-!
Shallow embedding of the SevaStream recurring payment stream engine.

The engine lives in `frontend/src/hooks/useX402.ts`; numbers of the source
(TypeScript `number`) are modelled as exact rationals `ℚ`, wall-clock
timestamps (`Date.now()`, milliseconds) are passed explicitly as `ℚ`
parameters, and the React `useState` cell `activeStreams` becomes explicit
state passing of a `List X402Stream`.  A second fee helper lives in the
DonorPortal component (`src/unnamed/part_009`), and the backend socket
service (`backend/src/services/socketService.ts`) keeps its own stream map;
both are embedded below as well.
-/

namespace SevaStream

namespace UseX402

/-- `interface X402Stream` of `useX402.ts`: id, per-tick amount, interval in
seconds, recipient, active flag, accumulated total, creation timestamp
(milliseconds). -/
structure X402Stream where
  id : String
  amount : ℚ
  interval : ℚ
  recipient : String
  isActive : Bool
  totalSent : ℚ
  startTime : ℚ
deriving DecidableEq

/-- The stream record built by `startPaymentStream`: active, nothing sent yet. -/
def mkStream (id : String) (amount : ℚ) (recipient : String)
    (intervalSeconds : ℚ) (now : ℚ) : X402Stream :=
  { id := id, amount := amount, interval := intervalSeconds,
    recipient := recipient, isActive := true, totalSent := 0, startTime := now }

/-- `startPaymentStream` state update: `setActiveStreams(prev => [...prev, newStream])`.
The source performs no validation of `amount`, `recipient` or `intervalSeconds`. -/
def startPaymentStream (amount : ℚ) (recipient : String) (intervalSeconds : ℚ)
    (streamId : String) (now : ℚ) (streams : List X402Stream) : List X402Stream :=
  streams ++ [mkStream streamId amount recipient intervalSeconds now]

/-- The per-element update of `stopPaymentStream`:
`s.id === streamId ? { ...s, isActive: false } : s`. -/
def stopUpd (streamId : String) (s : X402Stream) : X402Stream :=
  if s.id = streamId then { s with isActive := false } else s

/-- `stopPaymentStream` state update: map every stream with the matching id to
an inactive copy; streams are never removed from the list.  An unknown id is a
silent no-op (the function has no error channel). -/
def stopPaymentStream (streamId : String) (streams : List X402Stream) : List X402Stream :=
  streams.map (stopUpd streamId)

/-- The per-element update performed by the interval callback when a payment
succeeds: `stream.id === streamId ? { ...stream, totalSent: stream.totalSent + amount } : stream`.
Note the source does NOT test `isActive` here. -/
def tickUpd (streamId : String) (amount : ℚ) (s : X402Stream) : X402Stream :=
  if s.id = streamId then { s with totalSent := s.totalSent + amount } else s

/-- State update of a successful tick of the interval callback in
`startPaymentStream`. -/
def applyTickSuccess (streamId : String) (amount : ℚ)
    (streams : List X402Stream) : List X402Stream :=
  streams.map (tickUpd streamId amount)

/-- `getAllStreams` / the hook's exported `activeStreams`:
`activeStreams.filter(stream => stream.isActive)`. -/
def getAllStreams (streams : List X402Stream) : List X402Stream :=
  streams.filter (fun s => s.isActive)

/-- `getTotalStreamAmount`: sum of `amount` over active streams. -/
def getTotalStreamAmount (streams : List X402Stream) : ℚ :=
  ((streams.filter (fun s => s.isActive)).map (fun s => s.amount)).sum

/-- Result record of `getStreamStats`. -/
structure StreamStats where
  streamId : String
  runtime : ℚ
  totalSent : ℚ
  expectedPayments : ℤ
  actualPayments : ℚ
  successRate : ℚ
  isActive : Bool
deriving DecidableEq

/-- `getStreamStats`: find the stream (`null`, i.e. `none`, when absent), then
`runtime = Date.now() - startTime` (ms),
`expectedPayments = Math.floor(runtime / (interval * 1000))`,
`actualPayments = totalSent / amount`,
`successRate = expectedPayments > 0 ? (actualPayments / expectedPayments) * 100 : 0`. -/
def getStreamStats (streamId : String) (now : ℚ)
    (streams : List X402Stream) : Option StreamStats :=
  match streams.find? (fun s => decide (s.id = streamId)) with
  | none => none
  | some stream =>
    let runtime : ℚ := now - stream.startTime
    let expectedPayments : ℤ := ⌊runtime / (stream.interval * 1000)⌋
    let actualPayments : ℚ := stream.totalSent / stream.amount
    some { streamId := streamId
           runtime := runtime / 1000
           totalSent := stream.totalSent
           expectedPayments := expectedPayments
           actualPayments := actualPayments
           successRate := if expectedPayments > 0
             then (actualPayments / (expectedPayments : ℚ)) * 100 else 0
           isActive := stream.isActive }

/-- `calculateX402Fee` of `useX402.ts`:
`Math.max(0.01, amount * 0.001)` — minimum 1 paisa, 0.1% of amount. -/
def calculateX402Fee (amount : ℚ) : ℚ :=
  max (1 / 100) (amount * (1 / 1000))

end UseX402

namespace DonorPortal

/-- `calculateX402Fee` of the DonorPortal component: `amount * 0.001`
(0.1% fee), with no minimum floor. -/
def calculateX402Fee (amount : ℚ) : ℚ :=
  amount * (1 / 1000)

end DonorPortal

namespace SocketService

/-- `status: 'active' | 'paused' | 'completed'` of the backend
`DonationStream`. -/
inductive DonationStatus where
  | active
  | paused
  | completed
deriving DecidableEq

/-- `interface DonationStream` of `socketService.ts` (`startTime` in
milliseconds). -/
structure DonationStream where
  id : String
  donor : String
  recipient : String
  amount : ℚ
  cause : String
  status : DonationStatus
  startTime : ℚ
deriving DecidableEq

/-- The module-level `activeStreams: Map<string, DonationStream>`, as an
association list keyed by stream id. -/
abbrev StreamMap : Type := List (String × DonationStream)

/-- `Map.set(streamId, stream)`: replace the binding when the key exists,
otherwise add it. -/
def mapSet (k : String) (v : DonationStream) (m : StreamMap) : StreamMap :=
  if (List.any m (fun e => decide (e.1 = k))) then
    List.map (fun e => if e.1 = k then (k, v) else e) m
  else m ++ [(k, v)]

/-- The `startDonationStream` handler: build a stream with status `active`
and `activeStreams.set(streamId, stream)`. -/
def startDonationStream (streamId donor recipient : String) (amount : ℚ)
    (cause : String) (now : ℚ) (m : StreamMap) : StreamMap :=
  mapSet streamId
    { id := streamId, donor := donor, recipient := recipient,
      amount := amount, cause := cause, status := .active, startTime := now } m

/-- The `stopDonationStream` handler: when the id is found, set
`stream.status = 'completed'`, delete it from the map and broadcast the
completed stream; an unknown id does nothing and broadcasts nothing. -/
def stopDonationStream (streamId : String) (m : StreamMap) :
    StreamMap × Option DonationStream :=
  match List.find? (fun e => decide (e.1 = streamId)) m with
  | none => (m, none)
  | some e =>
    (List.filter (fun e' => !decide (e'.1 = streamId)) m,
     some { e.2 with status := .completed })

end SocketService

namespace UseX402

/-!
Interleaving model of the scheduler.  A `setInterval` timer is registered per
started stream (the callback closure captures `streamId` and `amount`);
`clearInterval` in `stopPaymentStream` cancels the timer of a found stream but
cannot cancel a callback whose `processPayment` promise is already pending.
The JavaScript event loop runs the state updates (`setActiveStreams`)
atomically; the only suspension point is the awaited `processPayment`, so a
system history is a sequence of these atomic events.
-/

/-- Atomic events of the engine: a `startPaymentStream` call (the generated
`streamId` and `Date.now()` are inputs), an interval-timer firing (its payment
goes in flight), a `stopPaymentStream` call, and the resolution of an
in-flight payment as success or failure. -/
inductive Step where
  | start (id recipient : String) (amount intervalSeconds now : ℚ)
  | timerFire (id : String)
  | stop (id : String)
  | completeSuccess (id : String) (amount : ℚ)
  | completeFailure (id : String) (amount : ℚ)
deriving DecidableEq

/-- Engine state: the `activeStreams` list, the live interval timers (stream
id with the `amount` captured by the callback closure), and the in-flight
`processPayment` calls (same closure data). -/
structure EngineState where
  streams : List X402Stream
  timers : List (String × ℚ)
  inflight : List (String × ℚ)
deriving DecidableEq

/-- Initial state: no streams, no timers, nothing in flight. -/
def EngineState.init : EngineState := ⟨[], [], []⟩

/-- Effect of a `stopPaymentStream` call on the whole engine state: every
stream with the id is marked inactive, and — when a stream with the id was
found — its interval timer is cleared.  In-flight payments are unaffected
(`clearInterval` does not cancel a pending promise). -/
def stopStep (streamId : String) (st : EngineState) : EngineState :=
  { st with
    streams := stopPaymentStream streamId st.streams
    timers := if List.any st.streams (fun s => decide (s.id = streamId))
      then List.filter (fun e => !decide (e.1 = streamId)) st.timers
      else st.timers }

/-- One atomic event.  `none` means the event is not enabled in this state:
a fresh-id collision at `start` (the source's `Date.now()`/random ids never
collide), a fire of a timer that does not exist, or the resolution of a
payment that is not in flight. -/
def step (st : EngineState) : Step → Option EngineState
  | .start id recipient amount intervalSeconds now =>
    if List.any st.streams (fun s => decide (s.id = id)) then none
    else some { st with
      streams := startPaymentStream amount recipient intervalSeconds id now st.streams
      timers := st.timers ++ [(id, amount)] }
  | .timerFire id =>
    match List.find? (fun e => decide (e.1 = id)) st.timers with
    | none => none
    | some e => some { st with inflight := st.inflight ++ [e] }
  | .stop id => some (stopStep id st)
  | .completeSuccess id amount =>
    if (id, amount) ∈ st.inflight then
      some { st with
        streams := applyTickSuccess id amount st.streams
        inflight := List.eraseP (fun e => decide (e = (id, amount))) st.inflight }
    else none
  | .completeFailure id amount =>
    if (id, amount) ∈ st.inflight then
      some { st with
        inflight := List.eraseP (fun e => decide (e = (id, amount))) st.inflight }
    else none

/-- Run a history of events from a state; `none` when some event was not
enabled. -/
def run (st : EngineState) : List Step → Option EngineState
  | [] => some st
  | e :: tr => (step st e).bind (fun st' => run st' tr)

/-- Number of successful tick completions for a given stream id in a
history. -/
def succCount (id : String) : List Step → ℕ
  | [] => 0
  | Step.completeSuccess id' _ :: tr => (if id' = id then 1 else 0) + succCount id tr
  | Step.start _ _ _ _ _ :: tr => succCount id tr
  | Step.timerFire _ :: tr => succCount id tr
  | Step.stop _ :: tr => succCount id tr
  | Step.completeFailure _ _ :: tr => succCount id tr

/-- Following the words of the spec, for comparison with `getStreamStats`:
`successRate = successCount / max(expectedTicks, 1) × 100`. -/
def specSuccessRate (successCount : ℚ) (expectedTicks : ℤ) : ℚ :=
  successCount / ((max expectedTicks 1 : ℤ) : ℚ) * 100

/-- Following the words of the spec, for comparison with `stopPaymentStream`:
a stop of an unknown `streamId` reports `NotFound`. -/
def specStopStream (streamId : String) (streams : List X402Stream) :
    Except String (List X402Stream) :=
  if List.any streams (fun s => decide (s.id = streamId)) then
    Except.ok (stopPaymentStream streamId streams)
  else Except.error "NotFound"

/-- Reachability invariant of the engine, relative to the history that led to
the state: accumulated totals account exactly for the successful ticks, every
closure (timer registration or in-flight payment) carries the amount of its
stream and refers to a stream that exists, successful ticks only ever happened
to streams that exist, and stream ids are unique. -/
structure Inv (st : EngineState) (tr : List Step) : Prop where
  accounting : ∀ s ∈ st.streams, s.totalSent = s.amount * (succCount s.id tr : ℚ)
  closureAmount : ∀ e ∈ st.timers ++ st.inflight,
    ∀ s ∈ st.streams, s.id = e.1 → s.amount = e.2
  closureLive : ∀ e ∈ st.timers ++ st.inflight, ∃ s ∈ st.streams, s.id = e.1
  succLive : ∀ id, 0 < succCount id tr → ∃ s ∈ st.streams, s.id = id
  idsNodup : (st.streams.map X402Stream.id).Nodup

/-! Basic facts about the per-element updates. -/

theorem stopUpd_id (i : String) (s : X402Stream) : (stopUpd i s).id = s.id := by
  unfold stopUpd; split <;> rfl

theorem stopUpd_amount (i : String) (s : X402Stream) :
    (stopUpd i s).amount = s.amount := by
  unfold stopUpd; split <;> rfl

theorem stopUpd_totalSent (i : String) (s : X402Stream) :
    (stopUpd i s).totalSent = s.totalSent := by
  unfold stopUpd; split <;> rfl

theorem stopUpd_idem (i : String) (s : X402Stream) :
    stopUpd i (stopUpd i s) = stopUpd i s := by
  unfold stopUpd
  by_cases h : s.id = i <;> simp [h]

theorem tickUpd_id (i : String) (a : ℚ) (s : X402Stream) :
    (tickUpd i a s).id = s.id := by
  unfold tickUpd; split <;> rfl

theorem tickUpd_amount (i : String) (a : ℚ) (s : X402Stream) :
    (tickUpd i a s).amount = s.amount := by
  unfold tickUpd; split <;> rfl

theorem tickUpd_isActive (i : String) (a : ℚ) (s : X402Stream) :
    (tickUpd i a s).isActive = s.isActive := by
  unfold tickUpd; split <;> rfl

theorem tickUpd_startTime (i : String) (a : ℚ) (s : X402Stream) :
    (tickUpd i a s).startTime = s.startTime := by
  unfold tickUpd; split <;> rfl

theorem step_start_eq (st : EngineState) (id recipient : String)
    (amount intervalSeconds now : ℚ) :
    step st (Step.start id recipient amount intervalSeconds now) =
      if List.any st.streams (fun s => decide (s.id = id)) then none
      else some { streams := startPaymentStream amount recipient intervalSeconds id now st.streams
                  timers := st.timers ++ [(id, amount)]
                  inflight := st.inflight } := rfl

theorem step_timerFire_eq (st : EngineState) (id : String) :
    step st (Step.timerFire id) =
      (match List.find? (fun e => decide (e.1 = id)) st.timers with
       | none => none
       | some e => some { st with inflight := st.inflight ++ [e] }) := rfl

theorem step_stop_eq (st : EngineState) (id : String) :
    step st (Step.stop id) = some (stopStep id st) := rfl

theorem step_completeSuccess_eq (st : EngineState) (id : String) (amount : ℚ) :
    step st (Step.completeSuccess id amount) =
      if (id, amount) ∈ st.inflight then
        some { streams := applyTickSuccess id amount st.streams
               timers := st.timers
               inflight := List.eraseP (fun e => decide (e = (id, amount))) st.inflight }
      else none := rfl

theorem step_completeFailure_eq (st : EngineState) (id : String) (amount : ℚ) :
    step st (Step.completeFailure id amount) =
      if (id, amount) ∈ st.inflight then
        some { streams := st.streams
               timers := st.timers
               inflight := List.eraseP (fun e => decide (e = (id, amount))) st.inflight }
      else none := rfl

theorem any_id_stopPaymentStream (i j : String) (l : List X402Stream) :
    List.any (stopPaymentStream i l) (fun s => decide (s.id = j)) =
      List.any l (fun s => decide (s.id = j)) := by
  have hfun : (fun s => decide (s.id = j)) ∘ stopUpd i =
      fun s : X402Stream => decide (s.id = j) := by
    funext s
    simp [Function.comp, stopUpd_id]
  simp [stopPaymentStream, List.any_map, hfun]

end UseX402

namespace UseX402

/-- C10: the `useX402.ts` fee helper never goes below the 0.01 floor — for
every amount, zero and negative amounts included, the fee is at least 0.01;
for every amount at most 10 it is exactly 0.01; and it is never zero. -/
theorem calculateX402Fee_minimum_floor (a : ℚ) :
    1 / 100 ≤ calculateX402Fee a ∧
    (a ≤ 10 → calculateX402Fee a = 1 / 100) ∧
    calculateX402Fee a ≠ 0 := by
  refine ⟨le_max_left _ _, fun h => ?_, fun h0 => ?_⟩
  · apply max_eq_left
    linarith
  · have hle : 1 / 100 ≤ calculateX402Fee a := le_max_left _ _
    rw [h0] at hle
    norm_num at hle

/-- Witness for C10 at `a = 3` (which is ≤ 10). -/
theorem calculateX402Fee_minimum_floor_witness :
    1 / 100 ≤ calculateX402Fee 3 ∧ calculateX402Fee 3 = 1 / 100 ∧
    calculateX402Fee 3 ≠ 0 :=
  ⟨(calculateX402Fee_minimum_floor 3).1,
   (calculateX402Fee_minimum_floor 3).2.1 (by norm_num),
   (calculateX402Fee_minimum_floor 3).2.2⟩

/-- C6 (amended): both fee helpers are deterministic (pure functions of the
amount) and monotonically non-decreasing; the `useX402.ts` helper follows the
`max(minimumFee, amount × feeRate)` policy with `minimumFee = 0.01` and
`feeRate = 0.001`, while the DonorPortal helper is the bare `amount × 0.001`
with no minimum-fee floor, so the max-with-floor form does not hold for every
fee helper of the system. -/
theorem fee_helpers_deterministic_monotone (a b : ℚ) :
    calculateX402Fee a = max (1 / 100) (a * (1 / 1000)) ∧
    DonorPortal.calculateX402Fee a = a * (1 / 1000) ∧
    (a ≤ b → calculateX402Fee a ≤ calculateX402Fee b) ∧
    (a ≤ b → DonorPortal.calculateX402Fee a ≤ DonorPortal.calculateX402Fee b) := by
  refine ⟨rfl, rfl, fun h => ?_, fun h => ?_⟩
  · exact max_le_max le_rfl (by nlinarith)
  · unfold DonorPortal.calculateX402Fee
    nlinarith

/-- Witness for C6 at `a = 2`, `b = 5`. -/
theorem fee_helpers_deterministic_monotone_witness :
    calculateX402Fee 2 = max (1 / 100) (2 * (1 / 1000)) ∧
    DonorPortal.calculateX402Fee 2 = 2 * (1 / 1000) ∧
    calculateX402Fee 2 ≤ calculateX402Fee 5 ∧
    DonorPortal.calculateX402Fee 2 ≤ DonorPortal.calculateX402Fee 5 :=
  ⟨(fee_helpers_deterministic_monotone 2 5).1,
   (fee_helpers_deterministic_monotone 2 5).2.1,
   (fee_helpers_deterministic_monotone 2 5).2.2.1 (by norm_num),
   (fee_helpers_deterministic_monotone 2 5).2.2.2 (by norm_num)⟩

/-- Counterexample for C6 as stated: the DonorPortal fee helper does not
satisfy `fee = max(0.01, amount × 0.001)` — at amount 0 it returns 0, below
the observed minimum fee. -/
theorem donorPortal_fee_lacks_minimum_floor :
    ¬ ∀ a : ℚ, DonorPortal.calculateX402Fee a = max (1 / 100) (a * (1 / 1000)) := by
  intro h
  have h0 := h 0
  rw [DonorPortal.calculateX402Fee] at h0
  rw [max_eq_left (by norm_num : (0 : ℚ) * (1 / 1000) ≤ 1 / 100)] at h0
  norm_num at h0

/-- C3: `stopPaymentStream` is idempotent — a stop call always succeeds
(`step` is defined on it in every state), and stopping the same id twice in a
row leaves the named stream and the whole engine state exactly as one stop
does; stopping an already-inactive stream changes nothing further. -/
theorem stopPaymentStream_idempotent (streamId : String) (st : EngineState) :
    step st (Step.stop streamId) = some (stopStep streamId st) ∧
    stopStep streamId (stopStep streamId st) = stopStep streamId st := by
  refine ⟨rfl, ?_⟩
  unfold stopStep
  have hstreams : stopPaymentStream streamId (stopPaymentStream streamId st.streams) =
      stopPaymentStream streamId st.streams := by
    unfold stopPaymentStream
    rw [List.map_map]
    have hfun : stopUpd streamId ∘ stopUpd streamId = stopUpd streamId := by
      funext s
      exact stopUpd_idem streamId s
    rw [hfun]
  have hany : List.any (stopPaymentStream streamId st.streams)
      (fun s => decide (s.id = streamId)) =
      List.any st.streams (fun s => decide (s.id = streamId)) :=
    any_id_stopPaymentStream streamId streamId st.streams
  by_cases hc : List.any st.streams (fun s => decide (s.id = streamId)) = true
  · simp only [hstreams, hany, hc, if_true, List.filter_filter]
    simp [Bool.and_self]
  · simp only [hstreams, hany, hc]
    simp

/-- C9 (amended): referencing an unknown `streamId` gives `NotFound` only for
reads — `getStreamStats` returns `none` — while `stopPaymentStream` (and the
backend stop handler) on an unknown id silently does nothing: the stream list
or map is returned unchanged and nothing is reported. -/
theorem unknown_streamId_behavior (streamId : String) (now : ℚ)
    (streams : List X402Stream) (m : SocketService.StreamMap)
    (h : ∀ s ∈ streams, s.id ≠ streamId)
    (hm : ∀ e ∈ m, e.1 ≠ streamId) :
    getStreamStats streamId now streams = none ∧
    stopPaymentStream streamId streams = streams ∧
    SocketService.stopDonationStream streamId m = (m, none) := by
  have hfind : List.find? (fun s => decide (s.id = streamId)) streams = none := by
    rw [List.find?_eq_none]
    intro s hs
    simp [h s hs]
  have hmfind : List.find? (fun e => decide (e.1 = streamId)) m = none := by
    rw [List.find?_eq_none]
    intro e he
    simp [hm e he]
  refine ⟨?_, ?_, ?_⟩
  · unfold getStreamStats
    rw [hfind]
  · unfold stopPaymentStream
    have : ∀ s ∈ streams, stopUpd streamId s = s := by
      intro s hs
      unfold stopUpd
      simp [h s hs]
    calc streams.map (stopUpd streamId) = streams.map id := List.map_congr_left this
    _ = streams := List.map_id streams
  · unfold SocketService.stopDonationStream
    rw [hmfind]

/-- Witness for C9: a concrete stream list and map where the id `zzz` is
unknown. -/
theorem unknown_streamId_behavior_witness :
    getStreamStats "zzz" 0 [mkStream "a" 5 "r" 10 0] = none ∧
    stopPaymentStream "zzz" [mkStream "a" 5 "r" 10 0] = [mkStream "a" 5 "r" 10 0] ∧
    SocketService.stopDonationStream "zzz" [] = ([], none) := by
  exact unknown_streamId_behavior "zzz" 0 [mkStream "a" 5 "r" 10 0] []
    (by intro s hs; simp [mkStream] at hs; simp [hs]) (by intro e he; simp at he)

/-- Counterexample for C9 as stated: the source stop on an unknown id is a
silent no-op (same list back, no error channel), where the spec requires a
`NotFound` report (`specStopStream` renders that requirement). -/
theorem stopPaymentStream_unknown_silent_noop :
    stopPaymentStream "zzz" [mkStream "a" 5 "r" 10 0] = [mkStream "a" 5 "r" 10 0] ∧
    specStopStream "zzz" [mkStream "a" 5 "r" 10 0] =
      Except.error "NotFound" := by
  constructor
  · simp [stopPaymentStream, stopUpd, mkStream]
  · simp [specStopStream, mkStream]

/-- C7 (amended): for an existing stream, `getStreamStats` reports
`runtimeSeconds = (now - startTime) / 1000`,
`expectedTicks = floor(runtimeSeconds / intervalSeconds)` and, writing
`successCount` for `totalSent / amount`,
`successRate = successCount / expectedTicks × 100` when `expectedTicks > 0`
but `0` — not `successCount × 100` over the divisor `max(expectedTicks, 1)` —
when `expectedTicks = 0`. -/
theorem getStreamStats_formula (streamId : String) (now : ℚ)
    (streams : List X402Stream) (s : X402Stream) (succN : ℚ)
    (hfind : List.find? (fun t => decide (t.id = streamId)) streams = some s)
    (hamount : s.amount ≠ 0) (hsucc : s.totalSent = s.amount * succN) :
    getStreamStats streamId now streams = some
      { streamId := streamId
        runtime := (now - s.startTime) / 1000
        totalSent := s.totalSent
        expectedPayments := ⌊(now - s.startTime) / 1000 / s.interval⌋
        actualPayments := succN
        successRate := if 0 < ⌊(now - s.startTime) / 1000 / s.interval⌋
          then succN / ((⌊(now - s.startTime) / 1000 / s.interval⌋ : ℤ) : ℚ) * 100
          else 0
        isActive := s.isActive } := by
  have hfloor : (now - s.startTime) / (s.interval * 1000) =
      (now - s.startTime) / 1000 / s.interval := by
    rw [div_div, mul_comm]
  have hact : s.totalSent / s.amount = succN := by
    rw [hsucc, mul_comm, mul_div_assoc, div_self hamount, mul_one]
  unfold getStreamStats
  rw [hfind]
  simp only [hfloor, hact, gt_iff_lt]

/-- Witness for C7: a stream that has run 30 s at a 10 s interval with three
successful ticks of amount 5 shows 100% success rate. -/
theorem getStreamStats_formula_witness :
    getStreamStats "s" 30000 [⟨"s", 5, 10, "r", true, 15, 0⟩] =
      some ⟨"s", 30, 15, 3, 3, 100, true⟩ := by
  have h := getStreamStats_formula "s" 30000 [⟨"s", 5, 10, "r", true, 15, 0⟩]
    ⟨"s", 5, 10, "r", true, 15, 0⟩ 3 (by simp) (by norm_num) (by norm_num)
  rw [h]
  have hfl : ⌊((30000 : ℚ) - 0) / 1000 / 10⌋ = 3 := by
    rw [Int.floor_eq_iff]
    norm_num
  simp only [hfl]
  norm_num

/-- Counterexample for C7 as stated: at stream fields with one accounted
success and `expectedTicks = 0` (runtime 0.5 s, interval 10 s), the source
returns success rate 0, where the claimed `successCount / max(expectedTicks,1)
× 100` formula (`specSuccessRate`) gives 100. -/
theorem getStreamStats_zero_expected_rate_zero :
    Option.map (fun stats => stats.successRate)
        (getStreamStats "s" 500 [⟨"s", 5, 10, "r", true, 5, 0⟩]) = some 0 ∧
    specSuccessRate 1 0 = 100 ∧ (0 : ℚ) ≠ 100 := by
  refine ⟨?_, by norm_num [specSuccessRate], by norm_num⟩
  have hfl : ⌊((500 : ℚ) - 0) / (10 * 1000)⌋ = 0 := by
    rw [Int.floor_eq_iff]
    norm_num
  unfold getStreamStats
  simp only [List.find?]
  norm_num [hfl]

/-- C1 (amended): `startPaymentStream` performs no parameter validation: for
every amount, interval and recipient — `amount ≤ 0`, `intervalSeconds ≤ 0` or
an empty recipient included — it returns the fresh `streamId` of a newly
appended stream that is active with `totalSent = 0` (no tick has executed),
and the new stream appears in the active-stream list; no
`InvalidParameter` failure exists in the source. -/
theorem startPaymentStream_unvalidated (id recipient : String)
    (amount intervalSeconds now : ℚ) (st : EngineState)
    (hfresh : ∀ s ∈ st.streams, s.id ≠ id) :
    step st (Step.start id recipient amount intervalSeconds now) =
      some { streams := startPaymentStream amount recipient intervalSeconds id now st.streams
             timers := st.timers ++ [(id, amount)]
             inflight := st.inflight } ∧
    (mkStream id amount recipient intervalSeconds now).isActive = true ∧
    (mkStream id amount recipient intervalSeconds now).totalSent = 0 ∧
    mkStream id amount recipient intervalSeconds now ∈
      getAllStreams (startPaymentStream amount recipient intervalSeconds id now st.streams) := by
  have hany : List.any st.streams (fun s => decide (s.id = id)) = false := by
    rw [List.any_eq_false]
    intro s hs
    simp [hfresh s hs]
  refine ⟨?_, rfl, rfl, ?_⟩
  · simp [step, hany]
  · simp [getAllStreams, startPaymentStream, mkStream]

/-- Witness for C1: starting a stream with amount 8 and interval 10 from the
empty engine. -/
theorem startPaymentStream_unvalidated_witness :
    step EngineState.init (Step.start "s1" "cause-1" 8 10 0) =
      some { streams := startPaymentStream 8 "cause-1" 10 "s1" 0 EngineState.init.streams
             timers := EngineState.init.timers ++ [("s1", 8)]
             inflight := EngineState.init.inflight } ∧
    (mkStream "s1" 8 "cause-1" 10 0).isActive = true ∧
    (mkStream "s1" 8 "cause-1" 10 0).totalSent = 0 ∧
    mkStream "s1" 8 "cause-1" 10 0 ∈
      getAllStreams (startPaymentStream 8 "cause-1" 10 "s1" 0 EngineState.init.streams) :=
  startPaymentStream_unvalidated "s1" "cause-1" 8 10 0 EngineState.init
    (by intro s hs; simp [EngineState.init] at hs)

/-- Counterexample for C1 as stated: `startStream` with `amount = 0` does not
fail — it creates a stream, and the active-stream list changes from `[]` to a
one-element list. -/
theorem startPaymentStream_zero_amount_creates_stream :
    Option.map (fun st => getAllStreams st.streams)
        (run EngineState.init [Step.start "s1" "cause-1" 0 10 0]) =
      some [mkStream "s1" 0 "cause-1" 10 0] ∧
    getAllStreams EngineState.init.streams = [] ∧
    some [mkStream "s1" 0 "cause-1" 10 0] ≠ some ([] : List X402Stream) := by
  refine ⟨?_, rfl, by simp⟩
  simp [run, step, EngineState.init, startPaymentStream, getAllStreams, mkStream]

/-- C5: a failed tick is non-fatal and isolated — completing an in-flight
payment as a failure never touches any stream (the whole stream list,
`totalSent` and `isActive` with it, is unchanged) nor any timer (the stream
keeps ticking), and the completion itself succeeds (it is the removal of the
in-flight entry, never an error). -/
theorem failed_tick_isolated (st : EngineState) (id : String) (a : ℚ) :
    (∀ st', step st (Step.completeFailure id a) = some st' →
      st'.streams = st.streams ∧ st'.timers = st.timers) ∧
    ((id, a) ∈ st.inflight →
      step st (Step.completeFailure id a) =
        some { st with
          inflight := List.eraseP (fun e => decide (e = (id, a))) st.inflight }) := by
  constructor
  · intro st' h
    rw [step_completeFailure_eq] at h
    by_cases hmem : (id, a) ∈ st.inflight
    · rw [if_pos hmem, Option.some.injEq] at h
      rw [← h]
      exact ⟨rfl, rfl⟩
    · rw [if_neg hmem] at h
      exact absurd h (by simp)
  · intro hmem
    rw [step_completeFailure_eq, if_pos hmem]

/-- Witness for C5: a state with one active stream, its timer, and one
in-flight payment; the failure completion leaves streams and timers as they
were. -/
theorem failed_tick_isolated_witness :
    (⟨[mkStream "s1" 5 "r" 10 0], [("s1", 5)], []⟩ : EngineState).streams =
      (⟨[mkStream "s1" 5 "r" 10 0], [("s1", 5)], [("s1", 5)]⟩ : EngineState).streams ∧
    (⟨[mkStream "s1" 5 "r" 10 0], [("s1", 5)], []⟩ : EngineState).timers =
      (⟨[mkStream "s1" 5 "r" 10 0], [("s1", 5)], [("s1", 5)]⟩ : EngineState).timers :=
  (failed_tick_isolated ⟨[mkStream "s1" 5 "r" 10 0], [("s1", 5)], [("s1", 5)]⟩
      "s1" 5).1
    ⟨[mkStream "s1" 5 "r" 10 0], [("s1", 5)], []⟩
    (by simp [step, List.eraseP_cons])

/-- C8 (amended): in the frontend engine the only transition that leaves the
active state is an explicit stop of that very stream id (ticks, timer fires
and starts never deactivate anything, and the deactivated state is the
`isActive = false` "Stopped" flag — the engine has no completed or failed
state at all); in the backend socket service, however, an explicit stop marks
the stream `completed` and removes it, and in both components no stream ever
terminates without an explicit stop request. -/
theorem active_exit_transitions (st : EngineState) (e : Step) (st' : EngineState)
    (hstep : step st e = some st') :
    (∀ s' ∈ st'.streams, s'.isActive = false →
      (∃ s ∈ st.streams, s.id = s'.id ∧ s.isActive = false) ∨ e = Step.stop s'.id) ∧
    (∀ (m : SocketService.StreamMap) (streamId : String)
        (en : String × SocketService.DonationStream),
      List.find? (fun x => decide (x.1 = streamId)) m = some en →
        (SocketService.stopDonationStream streamId m).2 =
          some { en.2 with status := SocketService.DonationStatus.completed } ∧
        ∀ x ∈ (SocketService.stopDonationStream streamId m).1, x.1 ≠ streamId) := by
  constructor
  · intro s' hmem hinact
    cases e with
    | start id recipient amount intervalSeconds now =>
      rw [step_start_eq] at hstep
      by_cases hany : List.any st.streams (fun s => decide (s.id = id)) = true
      · rw [if_pos hany] at hstep
        exact absurd hstep (by simp)
      · rw [if_neg hany, Option.some.injEq] at hstep
        rw [← hstep] at hmem
        simp only [startPaymentStream, List.mem_append, List.mem_singleton] at hmem
        rcases hmem with hold | hnew
        · exact Or.inl ⟨s', hold, rfl, hinact⟩
        · rw [hnew] at hinact
          exact absurd hinact (by simp [mkStream])
    | timerFire id =>
      rw [step_timerFire_eq] at hstep
      cases hf : List.find? (fun x => decide (x.1 = id)) st.timers with
      | none => rw [hf] at hstep; exact absurd hstep (by simp)
      | some e0 =>
        rw [hf, Option.some.injEq] at hstep
        rw [← hstep] at hmem
        exact Or.inl ⟨s', hmem, rfl, hinact⟩
    | stop id =>
      rw [step_stop_eq, Option.some.injEq] at hstep
      rw [← hstep] at hmem
      simp only [stopStep, stopPaymentStream, List.mem_map] at hmem
      obtain ⟨s, hs, hupd⟩ := hmem
      by_cases hid : s.id = id
      · right
        rw [← hupd, stopUpd_id, hid]
      · left
        rw [← hupd] at hinact ⊢
        unfold stopUpd at hinact ⊢
        rw [if_neg hid] at hinact ⊢
        exact ⟨s, hs, rfl, hinact⟩
    | completeSuccess id a =>
      rw [step_completeSuccess_eq] at hstep
      by_cases hmem' : (id, a) ∈ st.inflight
      · rw [if_pos hmem', Option.some.injEq] at hstep
        rw [← hstep] at hmem
        simp only [applyTickSuccess, List.mem_map] at hmem
        obtain ⟨s, hs, hupd⟩ := hmem
        refine Or.inl ⟨s, hs, ?_, ?_⟩
        · rw [← hupd, tickUpd_id]
        · rw [← hupd, tickUpd_isActive] at hinact
          exact hinact
      · rw [if_neg hmem'] at hstep
        exact absurd hstep (by simp)
    | completeFailure id a =>
      rw [step_completeFailure_eq] at hstep
      by_cases hmem' : (id, a) ∈ st.inflight
      · rw [if_pos hmem', Option.some.injEq] at hstep
        rw [← hstep] at hmem
        exact Or.inl ⟨s', hmem, rfl, hinact⟩
      · rw [if_neg hmem'] at hstep
        exact absurd hstep (by simp)
  · intro m streamId en hfind
    unfold SocketService.stopDonationStream
    rw [hfind]
    refine ⟨rfl, ?_⟩
    intro x hx
    simp only [List.mem_filter] at hx
    simpa using hx.2

/-- Witness for C8: stopping the one active stream of a concrete engine state,
and a concrete backend map. -/
theorem active_exit_transitions_witness :
    (∀ s' ∈ (stopStep "s1" ⟨[mkStream "s1" 5 "r" 10 0], [("s1", 5)], []⟩).streams,
      s'.isActive = false →
      (∃ s ∈ (⟨[mkStream "s1" 5 "r" 10 0], [("s1", 5)], []⟩ : EngineState).streams,
        s.id = s'.id ∧ s.isActive = false) ∨ Step.stop "s1" = Step.stop s'.id) ∧
    (∀ (m : SocketService.StreamMap) (streamId : String)
        (en : String × SocketService.DonationStream),
      List.find? (fun x => decide (x.1 = streamId)) m = some en →
        (SocketService.stopDonationStream streamId m).2 =
          some { en.2 with status := SocketService.DonationStatus.completed } ∧
        ∀ x ∈ (SocketService.stopDonationStream streamId m).1, x.1 ≠ streamId) :=
  active_exit_transitions ⟨[mkStream "s1" 5 "r" 10 0], [("s1", 5)], []⟩
    (Step.stop "s1") (stopStep "s1" ⟨[mkStream "s1" 5 "r" 10 0], [("s1", 5)], []⟩) rfl

theorem succCount_append (id : String) (tr₁ tr₂ : List Step) :
    succCount id (tr₁ ++ tr₂) = succCount id tr₁ + succCount id tr₂ := by
  induction tr₁ with
  | nil => simp [succCount]
  | cons e tr ih => cases e <;> simp [succCount, ih, Nat.add_assoc]

theorem run_append (st : EngineState) (tr₁ tr₂ : List Step) :
    run st (tr₁ ++ tr₂) = (run st tr₁).bind (fun s => run s tr₂) := by
  induction tr₁ generalizing st with
  | nil => simp [run]
  | cons e tr ih =>
    simp only [List.cons_append, run]
    cases step st e with
    | none => simp
    | some st' => simp [ih]

theorem inv_init : Inv EngineState.init [] := by
  refine ⟨?_, ?_, ?_, ?_, ?_⟩
  · intro s hs
    exact absurd hs (List.not_mem_nil s)
  · intro en hen
    exact absurd hen (by simp [EngineState.init])
  · intro en hen
    exact absurd hen (by simp [EngineState.init])
  · intro i hpos
    simp [succCount] at hpos
  · simp [EngineState.init]

theorem inv_step {st : EngineState} {tr : List Step} {e : Step} {st' : EngineState}
    (hInv : Inv st tr) (hstep : step st e = some st') : Inv st' (tr ++ [e]) := by
  obtain ⟨hacc, hcam, hcl, hsl, hnd⟩ := hInv
  cases e with
  | start id recipient amount intervalSeconds now =>
    rw [step_start_eq] at hstep
    by_cases hany : List.any st.streams (fun s => decide (s.id = id)) = true
    · rw [if_pos hany] at hstep
      exact absurd hstep (by simp)
    · rw [if_neg hany, Option.some.injEq] at hstep
      have hany' : List.any st.streams (fun s => decide (s.id = id)) = false :=
        Bool.eq_false_iff.mpr hany
      have hfresh : ∀ s ∈ st.streams, s.id ≠ id := by
        intro s hs h
        have := List.any_eq_false.mp hany' s hs
        simp [h] at this
      subst hstep
      have hsc0 : succCount id tr = 0 := by
        by_contra hz
        obtain ⟨s0, hs0, hid0⟩ := hsl id (Nat.pos_of_ne_zero hz)
        exact hfresh s0 hs0 hid0
      refine ⟨?_, ?_, ?_, ?_, ?_⟩
      · intro s hs
        rw [succCount_append]
        simp only [startPaymentStream, List.mem_append, List.mem_singleton] at hs
        rcases hs with h | h
        · simpa [succCount] using hacc s h
        · subst h
          simp [mkStream, succCount, hsc0]
      · intro en hen s hs hid
        simp only [List.mem_append, List.mem_singleton] at hen
        simp only [startPaymentStream, List.mem_append, List.mem_singleton] at hs
        rcases hs with hsOld | hsNew
        · rcases hen with (ht | hnew) | hi
          · exact hcam en (List.mem_append_left _ ht) s hsOld hid
          · subst hnew
            exact absurd hid (hfresh s hsOld)
          · exact hcam en (List.mem_append_right _ hi) s hsOld hid
        · subst hsNew
          rcases hen with (ht | hnew) | hi
          · obtain ⟨s0, hs0, hid0⟩ := hcl en (List.mem_append_left _ ht)
            rw [show (mkStream id amount recipient intervalSeconds now).id = id from rfl] at hid
            rw [← hid] at hid0
            exact absurd hid0 (hfresh s0 hs0)
          · subst hnew
            rfl
          · obtain ⟨s0, hs0, hid0⟩ := hcl en (List.mem_append_right _ hi)
            rw [show (mkStream id amount recipient intervalSeconds now).id = id from rfl] at hid
            rw [← hid] at hid0
            exact absurd hid0 (hfresh s0 hs0)
      · intro en hen
        simp only [List.mem_append, List.mem_singleton] at hen
        rcases hen with (ht | hnew) | hi
        · obtain ⟨s0, hs0, hid0⟩ := hcl en (List.mem_append_left _ ht)
          exact ⟨s0, by simp [startPaymentStream, hs0], hid0⟩
        · subst hnew
          exact ⟨mkStream id amount recipient intervalSeconds now,
            by simp [startPaymentStream], rfl⟩
        · obtain ⟨s0, hs0, hid0⟩ := hcl en (List.mem_append_right _ hi)
          exact ⟨s0, by simp [startPaymentStream, hs0], hid0⟩
      · intro i hpos
        rw [succCount_append] at hpos
        simp only [succCount, Nat.add_zero] at hpos
        obtain ⟨s0, hs0, hid0⟩ := hsl i hpos
        exact ⟨s0, by simp [startPaymentStream, hs0], hid0⟩
      · simp only [startPaymentStream, List.map_append]
        rw [List.nodup_append]
        refine ⟨hnd, by simp, ?_⟩
        intro x hx hy
        simp only [List.map_cons, List.map_nil, List.mem_singleton] at hy
        obtain ⟨s0, hs0, hid0⟩ := List.mem_map.mp hx
        exact hfresh s0 hs0 (hid0.trans hy)
  | timerFire id =>
    rw [step_timerFire_eq] at hstep
    cases hf : List.find? (fun x => decide (x.1 = id)) st.timers with
    | none =>
      rw [hf] at hstep
      exact absurd hstep (by simp)
    | some e0 =>
      rw [hf, Option.some.injEq] at hstep
      subst hstep
      have he0 : e0 ∈ st.timers := List.mem_of_find?_eq_some hf
      refine ⟨?_, ?_, ?_, ?_, hnd⟩
      · intro s hs
        rw [succCount_append]
        simpa [succCount] using hacc s hs
      · intro en hen s hs hid
        have hen' : en ∈ st.timers ++ st.inflight := by
          rcases List.mem_append.mp hen with h | h
          · exact List.mem_append_left _ h
          · rcases List.mem_append.mp h with h2 | h2
            · exact List.mem_append_right _ h2
            · rw [List.mem_singleton] at h2
              subst h2
              exact List.mem_append_left _ he0
        exact hcam en hen' s hs hid
      · intro en hen
        have hen' : en ∈ st.timers ++ st.inflight := by
          rcases List.mem_append.mp hen with h | h
          · exact List.mem_append_left _ h
          · rcases List.mem_append.mp h with h2 | h2
            · exact List.mem_append_right _ h2
            · rw [List.mem_singleton] at h2
              subst h2
              exact List.mem_append_left _ he0
        exact hcl en hen'
      · intro i hpos
        rw [succCount_append] at hpos
        simp only [succCount, Nat.add_zero] at hpos
        exact hsl i hpos
  | stop id =>
    rw [step_stop_eq, Option.some.injEq] at hstep
    subst hstep
    have htimers : ∀ en ∈ (stopStep id st).timers ++ (stopStep id st).inflight,
        en ∈ st.timers ++ st.inflight := by
      intro en hen
      rcases List.mem_append.mp hen with h | h
      · apply List.mem_append_left
        simp only [stopStep] at h
        revert h
        split
        · intro h
          exact List.mem_of_mem_filter h
        · intro h
          exact h
      · exact List.mem_append_right _ h
    refine ⟨?_, ?_, ?_, ?_, ?_⟩
    · intro s' hs'
      simp only [stopStep, stopPaymentStream, List.mem_map] at hs'
      obtain ⟨s, hs, rfl⟩ := hs'
      rw [stopUpd_totalSent, stopUpd_amount, stopUpd_id, succCount_append]
      simpa [succCount] using hacc s hs
    · intro en hen s' hs' hid
      simp only [stopStep, stopPaymentStream, List.mem_map] at hs'
      obtain ⟨s, hs, rfl⟩ := hs'
      rw [stopUpd_amount]
      rw [stopUpd_id] at hid
      exact hcam en (htimers en hen) s hs hid
    · intro en hen
      obtain ⟨s, hs, hid⟩ := hcl en (htimers en hen)
      exact ⟨stopUpd id s, List.mem_map_of_mem _ hs, by rw [stopUpd_id]; exact hid⟩
    · intro i hpos
      rw [succCount_append] at hpos
      simp only [succCount, Nat.add_zero] at hpos
      obtain ⟨s, hs, hid⟩ := hsl i hpos
      exact ⟨stopUpd id s, List.mem_map_of_mem _ hs, by rw [stopUpd_id]; exact hid⟩
    · have hmap : List.map X402Stream.id (stopStep id st).streams =
          List.map X402Stream.id st.streams := by
        simp only [stopStep, stopPaymentStream, List.map_map]
        have hfun : X402Stream.id ∘ stopUpd id = X402Stream.id :=
          funext fun s => stopUpd_id id s
        rw [hfun]
      rw [hmap]
      exact hnd
  | completeSuccess id a =>
    rw [step_completeSuccess_eq] at hstep
    by_cases hmem : (id, a) ∈ st.inflight
    · rw [if_pos hmem, Option.some.injEq] at hstep
      subst hstep
      have hamem : (id, a) ∈ st.timers ++ st.inflight := List.mem_append_right _ hmem
      have hsub : ∀ en ∈ st.timers ++
          List.eraseP (fun x => decide (x = (id, a))) st.inflight,
          en ∈ st.timers ++ st.inflight := by
        intro en hen
        rcases List.mem_append.mp hen with h | h
        · exact List.mem_append_left _ h
        · exact List.mem_append_right _ (List.mem_of_mem_eraseP h)
      refine ⟨?_, ?_, ?_, ?_, ?_⟩
      · intro s' hs'
        simp only [applyTickSuccess, List.mem_map] at hs'
        obtain ⟨s, hs, rfl⟩ := hs'
        rw [tickUpd_id, tickUpd_amount]
        by_cases hid : s.id = id
        · have hsc : succCount s.id (tr ++ [Step.completeSuccess id a]) =
              succCount s.id tr + 1 := by
            rw [succCount_append]
            simp [succCount, hid]
          have hAm : s.amount = a := hcam (id, a) hamem s hs hid
          unfold tickUpd
          rw [if_pos hid]
          show s.totalSent + a = s.amount * (succCount s.id (tr ++ [Step.completeSuccess id a]) : ℚ)
          rw [hsc, hacc s hs, hAm]
          push_cast
          ring
        · have hne : id ≠ s.id := fun h => hid h.symm
          have hsc : succCount s.id (tr ++ [Step.completeSuccess id a]) =
              succCount s.id tr := by
            rw [succCount_append]
            simp [succCount, hne]
          unfold tickUpd
          rw [if_neg hid]
          rw [hsc]
          exact hacc s hs
      · intro en hen s' hs' hid
        simp only [applyTickSuccess, List.mem_map] at hs'
        obtain ⟨s, hs, rfl⟩ := hs'
        rw [tickUpd_amount]
        rw [tickUpd_id] at hid
        exact hcam en (hsub en hen) s hs hid
      · intro en hen
        obtain ⟨s, hs, hid⟩ := hcl en (hsub en hen)
        exact ⟨tickUpd id a s, List.mem_map_of_mem _ hs, by rw [tickUpd_id]; exact hid⟩
      · intro i hpos
        by_cases hz : 0 < succCount i tr
        · obtain ⟨s, hs, hid⟩ := hsl i hz
          exact ⟨tickUpd id a s, List.mem_map_of_mem _ hs, by rw [tickUpd_id]; exact hid⟩
        · have hidi : id = i := by
            by_contra hne
            rw [succCount_append] at hpos
            simp [succCount, hne] at hpos
            omega
          subst hidi
          obtain ⟨s, hs, hid⟩ := hcl (id, a) hamem
          exact ⟨tickUpd id a s, List.mem_map_of_mem _ hs, by rw [tickUpd_id]; exact hid⟩
      · have hmap : List.map X402Stream.id (applyTickSuccess id a st.streams) =
            List.map X402Stream.id st.streams := by
          simp only [applyTickSuccess, List.map_map]
          have hfun : X402Stream.id ∘ tickUpd id a = X402Stream.id :=
            funext fun s => tickUpd_id id a s
          rw [hfun]
        show (List.map X402Stream.id (applyTickSuccess id a st.streams)).Nodup
        rw [hmap]
        exact hnd
    · rw [if_neg hmem] at hstep
      exact absurd hstep (by simp)
  | completeFailure id a =>
    rw [step_completeFailure_eq] at hstep
    by_cases hmem : (id, a) ∈ st.inflight
    · rw [if_pos hmem, Option.some.injEq] at hstep
      subst hstep
      have hsub : ∀ en ∈ st.timers ++
          List.eraseP (fun x => decide (x = (id, a))) st.inflight,
          en ∈ st.timers ++ st.inflight := by
        intro en hen
        rcases List.mem_append.mp hen with h | h
        · exact List.mem_append_left _ h
        · exact List.mem_append_right _ (List.mem_of_mem_eraseP h)
      refine ⟨?_, ?_, ?_, ?_, hnd⟩
      · intro s hs
        rw [succCount_append]
        simpa [succCount] using hacc s hs
      · intro en hen s hs hid
        exact hcam en (hsub en hen) s hs hid
      · intro en hen
        exact hcl en (hsub en hen)
      · intro i hpos
        rw [succCount_append] at hpos
        simp only [succCount, Nat.add_zero] at hpos
        exact hsl i hpos
    · rw [if_neg hmem] at hstep
      exact absurd hstep (by simp)

/-- Counterexample for C8 as stated: in the backend socket service an explicit
stop of an active stream broadcasts it with status `completed` — the target
state of a stop there is Completed, not Stopped (the backend status type has
no stopped value at all). -/
theorem stopDonationStream_yields_completed :
    (SocketService.stopDonationStream "d1"
        [("d1", ⟨"d1", "don", "rec", 5, "cause",
          SocketService.DonationStatus.active, 0⟩)]).2 =
      some ⟨"d1", "don", "rec", 5, "cause",
        SocketService.DonationStatus.completed, 0⟩ ∧
    SocketService.DonationStatus.completed ≠ SocketService.DonationStatus.active := by
  constructor
  · simp [SocketService.stopDonationStream, List.find?]
  · simp

theorem inv_run (tr : List Step) (st : EngineState)
    (h : run EngineState.init tr = some st) : Inv st tr := by
  induction tr using List.reverseRecOn generalizing st with
  | nil =>
    simp only [run, Option.some.injEq] at h
    rw [← h]
    exact inv_init
  | append_singleton tr e ih =>
    rw [run_append] at h
    cases hr : run EngineState.init tr with
    | none =>
      rw [hr] at h
      exact absurd h (by simp)
    | some stMid =>
      rw [hr] at h
      have h2 : run stMid [e] = some st := h
      have h' : step stMid e = some st := by
        have h := h2
        simp only [run] at h
        cases hs : step stMid e with
        | none => rw [hs] at h; exact absurd h (by simp)
        | some st2 =>
          rw [hs] at h
          simp only [Option.bind_some, run, Option.some.injEq] at h
          rw [h]
      exact inv_step (ih stMid hr) h'

/-- C2 (amended): over every reachable execution, each stream's `totalSent`
equals its `amount` times the number of its successful ticks in the history;
every event leaves a stream's `totalSent` unchanged or adds exactly `amount`
(a newly created stream starts at 0); and `totalSent` is monotonically
non-decreasing provided the stream's amount is non-negative (the source
accepts negative amounts, under which a successful tick decreases
`totalSent`). -/
theorem totalSent_eq_amount_mul_succCount :
    (∀ (tr : List Step) (st : EngineState), run EngineState.init tr = some st →
      ∀ s ∈ st.streams, s.totalSent = s.amount * (succCount s.id tr : ℚ)) ∧
    (∀ (tr : List Step) (st : EngineState) (e : Step) (st' : EngineState),
      run EngineState.init tr = some st → step st e = some st' →
      ∀ s' ∈ st'.streams, s'.totalSent = 0 ∨
        ∃ s ∈ st.streams, s.id = s'.id ∧ s.amount = s'.amount ∧
          (s'.totalSent = s.totalSent ∨ s'.totalSent = s.totalSent + s.amount)) ∧
    (∀ (tr : List Step) (st : EngineState) (e : Step) (st' : EngineState),
      run EngineState.init tr = some st → step st e = some st' →
      ∀ s ∈ st.streams, ∀ s' ∈ st'.streams, s.id = s'.id → 0 ≤ s.amount →
        s.totalSent ≤ s'.totalSent) := by
  have hdelta : ∀ (tr : List Step) (st : EngineState) (e : Step) (st' : EngineState),
      run EngineState.init tr = some st → step st e = some st' →
      ∀ s' ∈ st'.streams, s'.totalSent = 0 ∨
        ∃ s ∈ st.streams, s.id = s'.id ∧ s.amount = s'.amount ∧
          (s'.totalSent = s.totalSent ∨ s'.totalSent = s.totalSent + s.amount) := by
    intro tr st e st' hrun hstep s' hs'
    obtain ⟨hacc, hcam, hcl, hsl, hnd⟩ := inv_run tr st hrun
    cases e with
    | start id recipient amount intervalSeconds now =>
      rw [step_start_eq] at hstep
      by_cases hany : List.any st.streams (fun s => decide (s.id = id)) = true
      · rw [if_pos hany] at hstep
        exact absurd hstep (by simp)
      · rw [if_neg hany, Option.some.injEq] at hstep
        rw [← hstep] at hs'
        simp only [startPaymentStream, List.mem_append, List.mem_singleton] at hs'
        rcases hs' with h | h
        · exact Or.inr ⟨s', h, rfl, rfl, Or.inl rfl⟩
        · subst h
          exact Or.inl rfl
    | timerFire id =>
      rw [step_timerFire_eq] at hstep
      cases hf : List.find? (fun x => decide (x.1 = id)) st.timers with
      | none => rw [hf] at hstep; exact absurd hstep (by simp)
      | some e0 =>
        rw [hf, Option.some.injEq] at hstep
        rw [← hstep] at hs'
        exact Or.inr ⟨s', hs', rfl, rfl, Or.inl rfl⟩
    | stop id =>
      rw [step_stop_eq, Option.some.injEq] at hstep
      rw [← hstep] at hs'
      simp only [stopStep, stopPaymentStream, List.mem_map] at hs'
      obtain ⟨s, hs, rfl⟩ := hs'
      exact Or.inr ⟨s, hs, (stopUpd_id id s).symm, (stopUpd_amount id s).symm,
        Or.inl (stopUpd_totalSent id s)⟩
    | completeSuccess id a =>
      rw [step_completeSuccess_eq] at hstep
      by_cases hmem : (id, a) ∈ st.inflight
      · rw [if_pos hmem, Option.some.injEq] at hstep
        rw [← hstep] at hs'
        simp only [applyTickSuccess, List.mem_map] at hs'
        obtain ⟨s, hs, rfl⟩ := hs'
        by_cases hid : s.id = id
        · have hAm : s.amount = a := hcam (id, a) (List.mem_append_right _ hmem) s hs hid
          refine Or.inr ⟨s, hs, (tickUpd_id id a s).symm, (tickUpd_amount id a s).symm, Or.inr ?_⟩
          unfold tickUpd
          rw [if_pos hid, hAm]
        · refine Or.inr ⟨s, hs, (tickUpd_id id a s).symm, (tickUpd_amount id a s).symm, Or.inl ?_⟩
          unfold tickUpd
          rw [if_neg hid]
      · rw [if_neg hmem] at hstep
        exact absurd hstep (by simp)
    | completeFailure id a =>
      rw [step_completeFailure_eq] at hstep
      by_cases hmem : (id, a) ∈ st.inflight
      · rw [if_pos hmem, Option.some.injEq] at hstep
        rw [← hstep] at hs'
        exact Or.inr ⟨s', hs', rfl, rfl, Or.inl rfl⟩
      · rw [if_neg hmem] at hstep
        exact absurd hstep (by simp)
  refine ⟨fun tr st h => (inv_run tr st h).accounting, hdelta, ?_⟩
  intro tr st e st' hrun hstep s hs s' hs' hid hnn
  obtain ⟨hacc, hcam, hcl, hsl, hnd⟩ := inv_run tr st hrun
  cases e with
  | start id recipient amount intervalSeconds now =>
    rw [step_start_eq] at hstep
    by_cases hany : List.any st.streams (fun s => decide (s.id = id)) = true
    · rw [if_pos hany] at hstep
      exact absurd hstep (by simp)
    · rw [if_neg hany, Option.some.injEq] at hstep
      have hany' : List.any st.streams (fun s => decide (s.id = id)) = false :=
        Bool.eq_false_iff.mpr hany
      have hfresh : ∀ t ∈ st.streams, t.id ≠ id := by
        intro t ht hcontra
        have := List.any_eq_false.mp hany' t ht
        simp [hcontra] at this
      rw [← hstep] at hs'
      simp only [startPaymentStream, List.mem_append, List.mem_singleton] at hs'
      rcases hs' with hold | hnew
      · have heq : s = s' := List.inj_on_of_nodup_map hnd hs hold hid
        rw [heq]
      · have : s.id = id := by rw [hid, hnew]; rfl
        exact absurd this (hfresh s hs)
  | timerFire id =>
    rw [step_timerFire_eq] at hstep
    cases hf : List.find? (fun x => decide (x.1 = id)) st.timers with
    | none => rw [hf] at hstep; exact absurd hstep (by simp)
    | some e0 =>
      rw [hf, Option.some.injEq] at hstep
      rw [← hstep] at hs'
      have heq : s = s' := List.inj_on_of_nodup_map hnd hs hs' hid
      rw [heq]
  | stop id =>
    rw [step_stop_eq, Option.some.injEq] at hstep
    rw [← hstep] at hs'
    simp only [stopStep, stopPaymentStream, List.mem_map] at hs'
    obtain ⟨s0, hs0, rfl⟩ := hs'
    have hids : s.id = s0.id := by rw [hid, stopUpd_id]
    have heq : s = s0 := List.inj_on_of_nodup_map hnd hs hs0 hids
    rw [heq, stopUpd_totalSent]
  | completeSuccess id a =>
    rw [step_completeSuccess_eq] at hstep
    by_cases hmem : (id, a) ∈ st.inflight
    · rw [if_pos hmem, Option.some.injEq] at hstep
      rw [← hstep] at hs'
      simp only [applyTickSuccess, List.mem_map] at hs'
      obtain ⟨s0, hs0, rfl⟩ := hs'
      have hids : s.id = s0.id := by rw [hid, tickUpd_id]
      have heq : s = s0 := List.inj_on_of_nodup_map hnd hs hs0 hids
      subst heq
      by_cases hid0 : s.id = id
      · have hAm : s.amount = a := hcam (id, a) (List.mem_append_right _ hmem) s hs hid0
        have hupd : (tickUpd id a s).totalSent = s.totalSent + a := by
          unfold tickUpd
          rw [if_pos hid0]
        rw [hupd, ← hAm]
        linarith
      · have hupd : (tickUpd id a s).totalSent = s.totalSent := by
          unfold tickUpd
          rw [if_neg hid0]
        rw [hupd]
    · rw [if_neg hmem] at hstep
      exact absurd hstep (by simp)
  | completeFailure id a =>
    rw [step_completeFailure_eq] at hstep
    by_cases hmem : (id, a) ∈ st.inflight
    · rw [if_pos hmem, Option.some.injEq] at hstep
      rw [← hstep] at hs'
      have heq : s = s' := List.inj_on_of_nodup_map hnd hs hs' hid
      rw [heq]
    · rw [if_neg hmem] at hstep
      exact absurd hstep (by simp)

/-- Witness for C2: a start, one timer fire and one successful completion of
amount 8 leave `totalSent = 8 = 8 × 1`. -/
theorem totalSent_eq_amount_mul_succCount_witness :
    ∀ s ∈ (⟨[⟨"s1", 8, 10, "r", true, 8, 0⟩], [("s1", 8)], []⟩ : EngineState).streams,
      s.totalSent = s.amount *
        (succCount s.id [Step.start "s1" "r" 8 10 0, Step.timerFire "s1",
          Step.completeSuccess "s1" 8] : ℚ) :=
  totalSent_eq_amount_mul_succCount.1
    [Step.start "s1" "r" 8 10 0, Step.timerFire "s1", Step.completeSuccess "s1" 8]
    ⟨[⟨"s1", 8, 10, "r", true, 8, 0⟩], [("s1", 8)], []⟩
    (by simp [run, step, EngineState.init, startPaymentStream, mkStream, stopStep,
      stopPaymentStream, stopUpd, applyTickSuccess, tickUpd, List.find?,
      List.eraseP_cons])

/-- Counterexample for C2 as stated: `startPaymentStream` accepts a negative
amount, and a successful tick then takes `totalSent` from 0 to −5 — not
monotonically non-decreasing. -/
theorem totalSent_not_monotone_for_negative_amount :
    Option.map (fun st => List.map (fun s => s.totalSent) st.streams)
        (run EngineState.init [Step.start "s1" "r" (-5) 10 0, Step.timerFire "s1"]) =
      some [0] ∧
    Option.map (fun st => List.map (fun s => s.totalSent) st.streams)
        (run EngineState.init [Step.start "s1" "r" (-5) 10 0, Step.timerFire "s1",
          Step.completeSuccess "s1" (-5)]) = some [-5] ∧
    ¬ ((0 : ℚ) ≤ -5) := by
  refine ⟨?_, ?_, by norm_num⟩
  · simp [run, step, EngineState.init, startPaymentStream, mkStream, List.find?]
  · simp [run, step, EngineState.init, startPaymentStream, mkStream,
      applyTickSuccess, tickUpd, List.find?, List.eraseP_cons]

/-- C4: the race the spec rules out is real in the source — after the stream
is stopped and observed with `isActive = false` and `totalSent = 0`, the
in-flight payment (fired before the stop) completes successfully and adds its
amount to the stopped stream. -/
theorem inflight_payment_mutates_stopped_stream :
    run EngineState.init [Step.start "s1" "r" 5 1 0, Step.timerFire "s1", Step.stop "s1"] =
      some ⟨[⟨"s1", 5, 1, "r", false, 0, 0⟩], [], [("s1", 5)]⟩ ∧
    (∀ s ∈ [(⟨"s1", 5, 1, "r", false, 0, 0⟩ : X402Stream)],
      s.isActive = false ∧ s.totalSent = 0) ∧
    step (⟨[⟨"s1", 5, 1, "r", false, 0, 0⟩], [], [("s1", 5)]⟩ : EngineState)
        (Step.completeSuccess "s1" 5) =
      some ⟨[⟨"s1", 5, 1, "r", false, 5, 0⟩], [], []⟩ ∧
    (5 : ℚ) ≠ 0 := by
  refine ⟨?_, by simp, ?_, by norm_num⟩
  · simp [run, step, EngineState.init, startPaymentStream, mkStream, stopStep,
      stopPaymentStream, stopUpd, List.find?]
  · simp [step, applyTickSuccess, tickUpd, List.eraseP_cons]

end UseX402

end SevaStream
